import Mathlib

/-!
# Verification of the budget-api recurrence materialization engine

Shallow embedding of the scheduler package (`RunScheduler`,
`calculateNextDueDate`) and of the SQL repository surface it uses
(`query.sql` together with the schema of `001_init_schema.sql`), with
proofs settling the specification claims about them.

Dates are embedded as civil calendar triples (year, month, day).  Go's
`time.AddDate(y, m, d)` adds the components and then *normalizes* the
result the same way `time.Date` does (months are folded into years, and
an out-of-range day-of-month is carried into the following months or
borrowed from the preceding ones); `goAddDate` below implements exactly
that normalization.
-/

namespace BudgetApi

/-- A calendar date, as the (year, month, day) civil triple carried by a
midnight-UTC Go `time.Time`. -/
structure Date where
  year : Int
  month : Int
  day : Int
deriving DecidableEq, Repr

/-- Gregorian leap-year test. -/
def isLeap (y : Int) : Bool :=
  (y % 4 == 0 && y % 100 != 0) || y % 400 == 0

/-- Number of days in a month of a given year. -/
def daysInMonth (y m : Int) : Int :=
  if m == 2 then (if isLeap y then 29 else 28)
  else if m == 4 || m == 6 || m == 9 || m == 11 then 30
  else 31

/-- Fold an arbitrary month number into the range `[1, 12]`, carrying
whole years (the month-normalization step of Go's `time.Date`). -/
def normYM (y m : Int) : Int × Int :=
  (y + (m - 1).fdiv 12, (m - 1).emod 12 + 1)

/-- Carry an over-large day-of-month into the following months.  The
fuel is an upper bound on the number of months to cross; every step
removes at least 28 days, so `d.toNat` steps always suffice. -/
def carryDays : Nat → Int → Int → Int → Date
  | 0, y, m, d => ⟨y, m, d⟩
  | fuel + 1, y, m, d =>
    if d > daysInMonth y m then
      if m == 12 then carryDays fuel (y + 1) 1 (d - daysInMonth y m)
      else carryDays fuel y (m + 1) (d - daysInMonth y m)
    else ⟨y, m, d⟩

/-- Borrow days from the preceding months when the day-of-month is below
one.  Every step adds at least 28 days, so `(1 - d).toNat` steps always
suffice. -/
def borrowDays : Nat → Int → Int → Int → Date
  | 0, y, m, d => ⟨y, m, d⟩
  | fuel + 1, y, m, d =>
    if d < 1 then
      if m == 1 then borrowDays fuel (y - 1) 12 (d + daysInMonth (y - 1) 12)
      else borrowDays fuel y (m - 1) (d + daysInMonth y (m - 1))
    else ⟨y, m, d⟩

/-- Normalize a (year, month, day) triple into a valid civil date, the
way Go's `time.Date` constructor does. -/
def normDate (y m d : Int) : Date :=
  let ym := normYM y m
  if d < 1 then borrowDays (1 - d).toNat ym.1 ym.2 d
  else carryDays d.toNat ym.1 ym.2 d

/-- Embedding of Go's `time.Time.AddDate(years, months, days)` on a
date-valued time: add the components, then normalize. -/
def goAddDate (t : Date) (years months days : Int) : Date :=
  normDate (t.year + years) (t.month + months) (t.day + days)

/-- Chronological strict order on dates (Go `time.Time.Before` on
midnight-UTC dates; also SQLite `<` on ISO date strings). -/
def dateLt (a b : Date) : Bool :=
  a.year < b.year ||
    (a.year == b.year &&
      (a.month < b.month || (a.month == b.month && a.day < b.day)))

/-- Chronological non-strict order on dates (SQLite `<=` on ISO date
strings). -/
def dateLe (a b : Date) : Bool :=
  dateLt a b || a == b

/-! ## Data model (schema of `001_init_schema.sql`, structs of the sqlc
`repo` package) -/

/-- A row of the `tags` table. -/
structure Tag where
  id : Int
  name : String
deriving DecidableEq, Repr

/-- A row of the `recurring` table (`repo.Recurring`).  `description`
is a `sql.NullString`, `endDate` a `sql.NullTime`. -/
structure Recurring where
  id : Int
  userId : Int
  amountPence : Int
  description : Option String
  frequency : String
  intervalN : Int
  firstDueDate : Date
  nextDueDate : Date
  endDate : Option Date
  active : Bool
deriving DecidableEq, Repr

/-- A row of the `transactions` table (`repo.Transaction`).
`sourceRecurring` is a `sql.NullInt64` back-reference to the generating
rule, `deletedAt` the `sql.NullTime` soft-delete marker. -/
structure Transaction where
  id : Int
  userId : Int
  amountPence : Int
  tDate : Date
  note : Option String
  sourceRecurring : Option Int
  deletedAt : Option Date
deriving DecidableEq, Repr

/-- A row of the `transaction_tags` join table. -/
structure TransactionTag where
  transactionId : Int
  tagId : Int
deriving DecidableEq, Repr

/-- A row of the `recurring_tags` join table. -/
structure RecurringTag where
  recurringId : Int
  tagId : Int
deriving DecidableEq, Repr

/-- The SQLite store as seen by the scheduler.  Each table is the list
of its rows in insertion order; `nextTransactionId` is the
`AUTOINCREMENT` counter of the `transactions` table. -/
structure Store where
  recurring : List Recurring
  transactions : List Transaction
  transactionTags : List TransactionTag
  recurringTags : List RecurringTag
  tags : List Tag
  nextTransactionId : Int
deriving DecidableEq, Repr

/-! ## Stable ordering (SQL `ORDER BY`)

A `SELECT ... ORDER BY key` over rows held in insertion order is
modelled as a stable insertion sort by the key: rows whose keys are not
strictly ordered keep their stored relative order. -/

/-- Insert `a` into `l` before the first element not strictly below it
(`lt` is the strict comparison on sort keys); elements with equal keys
that are already present stay in front only when strictly smaller, so
the sort is stable. -/
def insertBy (lt : α → α → Bool) (a : α) : List α → List α
  | [] => [a]
  | b :: l => if lt b a then b :: insertBy lt a l else a :: b :: l

/-- Stable insertion sort by the strict comparison `lt`. -/
def sortBy (lt : α → α → Bool) : List α → List α
  | [] => []
  | a :: l => insertBy lt a (sortBy lt l)

/-- Byte-wise strict order on UTF-8 strings (SQLite's default `TEXT`
collation, `memcmp`), as codepoint order on the character lists. -/
def charListLt : List Char → List Char → Bool
  | [], [] => false
  | [], _ :: _ => true
  | _ :: _, [] => false
  | a :: as, b :: bs =>
    if a.val < b.val then true
    else if b.val < a.val then false
    else charListLt as bs

/-- Strict order on strings, via `charListLt`. -/
def strLt (a b : String) : Bool := charListLt a.data b.data

/-! ## Repository operations used by the scheduler (`query.sql`) -/

/-- `GetRecurringDueOnDate`: `SELECT * FROM recurring WHERE active = 1
AND next_due_date <= ? ORDER BY next_due_date ASC`. -/
def GetRecurringDueOnDate (s : Store) (today : Date) : List Recurring :=
  sortBy (fun a b => dateLt a.nextDueDate b.nextDueDate)
    (s.recurring.filter (fun r => r.active && dateLe r.nextDueDate today))

/-- `ToggleRecurringActive`: `UPDATE recurring SET active = CASE WHEN
active = 1 THEN 0 ELSE 1 END WHERE id = ?`. -/
def ToggleRecurringActive (s : Store) (id : Int) : Store :=
  { s with recurring := s.recurring.map (fun r =>
      if r.id = id then { r with active := !r.active } else r) }

/-- `UpdateRecurringNextDue`: `UPDATE recurring SET next_due_date = ?
WHERE id = ?`. -/
def UpdateRecurringNextDue (s : Store) (nextDueDate : Date) (id : Int) : Store :=
  { s with recurring := s.recurring.map (fun r =>
      if r.id = id then { r with nextDueDate := nextDueDate } else r) }

/-- The argument struct of `CreateTransaction`
(`repo.CreateTransactionParams`). -/
structure CreateTransactionParams where
  userId : Int
  amountPence : Int
  tDate : Date
  note : Option String
  sourceRecurring : Option Int
deriving DecidableEq, Repr

/-- The SQL errors the embedded queries can raise.  `uniqueConstraint`
is SQLite's `UNIQUE constraint failed` error. -/
inductive SqlErr where
  | uniqueConstraint
deriving DecidableEq, Repr

/-- Whether inserting `p` violates the schema constraint
`UNIQUE(source_recurring, t_date)`: a row (live or soft-deleted) with
the same non-null `source_recurring` and the same date already exists.
SQLite treats two `NULL`s as distinct, so manual transactions never
conflict. -/
def txConflict (s : Store) (p : CreateTransactionParams) : Bool :=
  match p.sourceRecurring with
  | none => false
  | some rid => s.transactions.any (fun t =>
      decide (t.sourceRecurring = some rid) && decide (t.tDate = p.tDate))

/-- `CreateTransaction`: `INSERT INTO transactions (user_id,
amount_pence, t_date, note, source_recurring) VALUES (?, ?, ?, ?, ?)
RETURNING *`, failing with SQLite's uniqueness error when the
idempotency-guard constraint is violated. -/
def CreateTransaction (s : Store) (p : CreateTransactionParams) :
    Except SqlErr (Transaction × Store) :=
  if txConflict s p then .error .uniqueConstraint
  else
    let row : Transaction :=
      { id := s.nextTransactionId, userId := p.userId,
        amountPence := p.amountPence, tDate := p.tDate, note := p.note,
        sourceRecurring := p.sourceRecurring, deletedAt := none }
    .ok (row, { s with transactions := s.transactions ++ [row],
                       nextTransactionId := s.nextTransactionId + 1 })

/-- `GetRecurringTags`: `SELECT t.* FROM tags t JOIN recurring_tags rt
ON t.id = rt.tag_id WHERE rt.recurring_id = ? ORDER BY t.name`. -/
def GetRecurringTags (s : Store) (recurringId : Int) : List Tag :=
  sortBy (fun a b => strLt a.name b.name)
    (s.tags.filter (fun t => s.recurringTags.any (fun rt =>
      decide (rt.recurringId = recurringId) && decide (rt.tagId = t.id))))

/-- `GetTransactionsByRecurringID`: `SELECT * FROM transactions WHERE
source_recurring = ? AND deleted_at IS NULL ORDER BY t_date DESC`. -/
def GetTransactionsByRecurringID (s : Store) (src : Option Int) : List Transaction :=
  sortBy (fun a b => dateLt b.tDate a.tDate)
    (s.transactions.filter (fun t =>
      decide (t.sourceRecurring = src) && decide (t.deletedAt = none)))

/-- `CreateTransactionTag`: `INSERT INTO transaction_tags
(transaction_id, tag_id) VALUES (?, ?) ON CONFLICT(transaction_id,
tag_id) DO NOTHING`. -/
def CreateTransactionTag (s : Store) (transactionId tagId : Int) : Store :=
  if s.transactionTags.any (fun tt =>
      decide (tt.transactionId = transactionId) && decide (tt.tagId = tagId)) then s
  else { s with transactionTags := s.transactionTags ++ [⟨transactionId, tagId⟩] }

/-- The retention predicate of `PurgeSoftDeletedTransactions`: a row is
kept unless its `deleted_at` is set and strictly before the cutoff (SQL
comparison with a `NULL` parameter holds of no row). -/
def keepTx (cutoff : Option Date) (t : Transaction) : Bool :=
  match t.deletedAt, cutoff with
  | some d, some c => !dateLt d c
  | _, _ => true

/-- `PurgeSoftDeletedTransactions`: `DELETE FROM transactions WHERE
deleted_at IS NOT NULL AND deleted_at < ?`. -/
def PurgeSoftDeletedTransactions (s : Store) (cutoff : Option Date) : Store :=
  { s with transactions := s.transactions.filter (keepTx cutoff) }

/-! ## The scheduler package -/

/-- `calculateNextDueDate` from the scheduler package: a `switch` on the
rule's frequency, each recognized case calling `time.AddDate`; an
unrecognized frequency falls through and leaves `nextDue` unchanged.
The `today` argument is accepted and ignored, as in the source. -/
def calculateNextDueDate (rule : Recurring) (today : Date) : Date :=
  let nextDue := rule.nextDueDate
  if rule.frequency = "daily" then goAddDate nextDue 0 0 rule.intervalN
  else if rule.frequency = "weekly" then goAddDate nextDue 0 0 (7 * rule.intervalN)
  else if rule.frequency = "monthly" then goAddDate nextDue 0 rule.intervalN 0
  else if rule.frequency = "yearly" then goAddDate nextDue rule.intervalN 0 0
  else nextDue

/-- `rule.EndDate.Valid && rule.EndDate.Time.Before(today)`: the check
`RunScheduler` performs before deactivating an expired rule. -/
def ruleEnded (rule : Recurring) (today : Date) : Bool :=
  match rule.endDate with
  | some e => dateLt e today
  | none => false

/-- The body of `RunScheduler`'s per-rule loop iteration: deactivate an
ended rule, or materialize a transaction, copy the rule's tags onto it
(locating its id through `GetTransactionsByRecurringID` and the first
row whose date equals the rule's due date, defaulting to Go's zero
value `0` when none matches), and persist the advanced due date.  Any
error is returned to the loop, which propagates it. -/
def processRule (today : Date) (s : Store) (rule : Recurring) : Except SqlErr Store :=
  if ruleEnded rule today then
    .ok (ToggleRecurringActive s rule.id)
  else
    match CreateTransaction s
        { userId := rule.userId, amountPence := rule.amountPence,
          tDate := rule.nextDueDate, note := rule.description,
          sourceRecurring := some rule.id } with
    | .error e => .error e
    | .ok (_, s1) =>
      let tags := GetRecurringTags s1 rule.id
      let txs := GetTransactionsByRecurringID s1 (some rule.id)
      let transactionID :=
        match txs.find? (fun t => decide (t.tDate = rule.nextDueDate)) with
        | some t => t.id
        | none => 0
      let s2 := tags.foldl (fun s tag => CreateTransactionTag s transactionID tag.id) s1
      .ok (UpdateRecurringNextDue s2 (calculateNextDueDate rule today) rule.id)

/-- The `for _, rule := range rules` loop of `RunScheduler`: each
iteration returns early on error. -/
def runRules (today : Date) : List Recurring → Store → Except SqlErr Store
  | [], s => .ok s
  | r :: rest, s =>
    match processRule today s r with
    | .ok s1 => runRules today rest s1
    | .error e => .error e

/-- The closure `RunScheduler` hands to `repository.WithTx`: fetch the
due rules, remember their count, process each, then purge soft-deleted
transactions older than `today.AddDate(0, 0, -30)`. -/
def runBody (today : Date) (s : Store) : Except SqlErr (Store × Nat) :=
  let rules := GetRecurringDueOnDate s today
  let processed := rules.length
  match runRules today rules s with
  | .error e => .error e
  | .ok s1 =>
    let cutoffDate := goAddDate today 0 0 (-30)
    .ok (PurgeSoftDeletedTransactions s1 (some cutoffDate), processed)

/-- `RepositoryImpl.WithTx`: run the body inside one database
transaction; commit its final state on success, roll everything back to
the initial state on error, returning the error to the caller. -/
def WithTx (s : Store) (body : Store → Except SqlErr (Store × α)) :
    Except SqlErr α × Store :=
  match body s with
  | .ok (s1, a) => (.ok a, s1)
  | .error e => (.error e, s)

/-- `RunScheduler`: the whole run inside `WithTx`; on success the
number of rules found due is returned, on error the store is left as it
was. -/
def RunScheduler (s : Store) (today : Date) : Except SqlErr Nat × Store :=
  WithTx s (fun s0 => runBody today s0)

/-! ## Basic facts about the date order -/

theorem dateEq_iff {a b : Date} :
    a = b ↔ a.year = b.year ∧ a.month = b.month ∧ a.day = b.day := by
  cases a; cases b; simp [Date.mk.injEq]

theorem dateLt_iff {a b : Date} :
    dateLt a b = true ↔
      a.year < b.year ∨ (a.year = b.year ∧
        (a.month < b.month ∨ (a.month = b.month ∧ a.day < b.day))) := by
  simp [dateLt]

theorem dateLe_iff {a b : Date} :
    dateLe a b = true ↔
      a.year < b.year ∨ (a.year = b.year ∧
        (a.month < b.month ∨ (a.month = b.month ∧ a.day ≤ b.day))) := by
  simp only [dateLe, Bool.or_eq_true, beq_iff_eq, dateLt_iff, dateEq_iff]
  omega

theorem dateLe_trans {a b c : Date} (hab : dateLe a b = true)
    (hbc : dateLe b c = true) : dateLe a c = true := by
  rw [dateLe_iff] at *; omega

theorem dateLe_of_not_lt {a b : Date} (h : dateLt b a = false) :
    dateLe a b = true := by
  rw [dateLe_iff]
  rw [← Bool.not_eq_true, dateLt_iff] at h
  omega

theorem dateEq_of_not_lt {a b : Date} (hab : dateLt a b = false)
    (hba : dateLt b a = false) : a = b := by
  rw [← Bool.not_eq_true, dateLt_iff] at hab hba
  rw [dateEq_iff]; omega

theorem dateLe_of_lt {a b : Date} (h : dateLt a b = true) :
    dateLe a b = true := by
  rw [dateLe_iff]; rw [dateLt_iff] at h; omega

/-! ## Facts about the stable sort -/

theorem mem_insertBy {lt : α → α → Bool} {a x : α} :
    ∀ {l : List α}, x ∈ insertBy lt a l ↔ x = a ∨ x ∈ l
  | [] => by simp [insertBy]
  | b :: l => by
    simp only [insertBy]
    split
    · simp only [List.mem_cons, @mem_insertBy _ lt a x l]
      tauto
    · simp only [List.mem_cons]

theorem perm_insertBy {lt : α → α → Bool} (a : α) :
    ∀ (l : List α), (insertBy lt a l).Perm (a :: l)
  | [] => by simp [insertBy]
  | b :: l => by
    simp only [insertBy]
    split
    · exact ((perm_insertBy a l).cons b).trans (List.Perm.swap a b l)
    · exact List.Perm.refl _

theorem perm_sortBy {lt : α → α → Bool} :
    ∀ (l : List α), (sortBy lt l).Perm l
  | [] => List.Perm.refl _
  | a :: l => (perm_insertBy a (sortBy lt l)).trans ((perm_sortBy l).cons a)

theorem mem_sortBy {lt : α → α → Bool} {x : α} {l : List α} :
    x ∈ sortBy lt l ↔ x ∈ l :=
  (perm_sortBy l).mem_iff

/-! ## The deterministic processing order of the due-rule selection -/

/-- The order in which the engine visits due rules: ascending due date,
ties broken by ascending rule id. -/
def schedOrder (a b : Recurring) : Prop :=
  dateLt a.nextDueDate b.nextDueDate = true ∨
    (a.nextDueDate = b.nextDueDate ∧ a.id < b.id)

/-- The strict key comparison `GetRecurringDueOnDate` sorts by. -/
def ruleLt (a b : Recurring) : Bool :=
  dateLt a.nextDueDate b.nextDueDate

theorem schedOrder_le {a b : Recurring} (h : schedOrder a b) :
    dateLe a.nextDueDate b.nextDueDate = true := by
  rcases h with h | ⟨h, -⟩
  · exact dateLe_of_lt h
  · rw [dateLe_iff]; rw [dateEq_iff] at h; omega

theorem dateEq_of_le_not_lt {a b : Date} (hle : dateLe a b = true)
    (hlt : dateLt a b = false) : a = b := by
  rw [dateLe_iff] at hle
  rw [← Bool.not_eq_true, dateLt_iff] at hlt
  rw [dateEq_iff]; omega

theorem pairwise_insertBy_sched :
    ∀ {L : List Recurring} (a : Recurring), L.Pairwise schedOrder →
      (∀ b ∈ L, a.id < b.id) → (insertBy ruleLt a L).Pairwise schedOrder
  | [], a, _, _ => List.pairwise_singleton _ _
  | b :: L, a, hP, ha => by
    rw [List.pairwise_cons] at hP
    obtain ⟨hbL, hPL⟩ := hP
    simp only [insertBy]
    split
    · rename_i hlt
      rw [List.pairwise_cons]
      refine ⟨fun x hx => ?_, pairwise_insertBy_sched a hPL
        (fun b hb => ha b (List.mem_cons_of_mem _ hb))⟩
      rcases mem_insertBy.1 hx with rfl | hx
      · exact Or.inl hlt
      · exact hbL x hx
    · rename_i hlt
      rw [Bool.not_eq_true] at hlt
      rw [List.pairwise_cons]
      refine ⟨fun x hx => ?_, List.pairwise_cons.2 ⟨hbL, hPL⟩⟩
      have hab : dateLe a.nextDueDate b.nextDueDate = true :=
        dateLe_of_not_lt hlt
      rcases List.mem_cons.1 hx with rfl | hx
      · by_cases h : dateLt a.nextDueDate x.nextDueDate = true
        · exact Or.inl h
        · exact Or.inr ⟨dateEq_of_le_not_lt hab (Bool.not_eq_true _ ▸ h),
            ha x (List.mem_cons_self _ _)⟩
      · have hax : dateLe a.nextDueDate x.nextDueDate = true :=
          dateLe_trans hab (schedOrder_le (hbL x hx))
        by_cases h : dateLt a.nextDueDate x.nextDueDate = true
        · exact Or.inl h
        · exact Or.inr ⟨dateEq_of_le_not_lt hax (Bool.not_eq_true _ ▸ h),
            ha x (List.mem_cons_of_mem _ hx)⟩

theorem pairwise_sortBy_sched :
    ∀ {l : List Recurring}, l.Pairwise (fun a b => a.id < b.id) →
      (sortBy ruleLt l).Pairwise schedOrder
  | [], _ => List.Pairwise.nil
  | a :: l, hP => by
    rw [List.pairwise_cons] at hP
    exact pairwise_insertBy_sched a (pairwise_sortBy_sched hP.2)
      (fun b hb => hP.1 b (mem_sortBy.1 hb))

/-- Two rows of a table whose ids are pairwise distinct and whose ids
agree are the same row. -/
theorem uniqueById {l : List Recurring}
    (h : l.Pairwise (fun a b => a.id ≠ b.id)) :
    ∀ {a b : Recurring}, a ∈ l → b ∈ l → a.id = b.id → a = b := by
  induction l with
  | nil => intro a b ha; simp at ha
  | cons x t ih =>
    rw [List.pairwise_cons] at h
    intro a b ha hb hid
    rcases List.mem_cons.1 ha with h1 | h1 <;>
      rcases List.mem_cons.1 hb with h2 | h2
    · rw [h1, h2]
    · rw [h1] at hid ⊢; exact absurd hid (h.1 b h2)
    · rw [h2] at hid ⊢; exact absurd hid.symm (h.1 a h1)
    · exact ih h.2 h1 h2 hid

/-- Membership characterization of the due-rule selection. -/
theorem mem_due_iff {s : Store} {asOf : Date} {r : Recurring} :
    r ∈ GetRecurringDueOnDate s asOf ↔
      r ∈ s.recurring ∧ r.active = true ∧ dateLe r.nextDueDate asOf = true := by
  simp [GetRecurringDueOnDate, mem_sortBy, List.mem_filter, and_assoc]

/-! ## How one loop iteration transforms the store -/

/-- The effect of one `processRule` iteration for the selected rule
`rule` on a single row of the `recurring` table. -/
def entryStep (today : Date) (rule r : Recurring) : Recurring :=
  if ruleEnded rule today then
    if r.id = rule.id then { r with active := !r.active } else r
  else
    if r.id = rule.id then { r with nextDueDate := calculateNextDueDate rule today } else r

/-- The effect of the whole loop on a single row of the `recurring`
table. -/
def entryFold (today : Date) (rules : List Recurring) (r : Recurring) : Recurring :=
  rules.foldl (fun acc rule => entryStep today rule acc) r

theorem entryFold_nil (today : Date) (r : Recurring) :
    entryFold today [] r = r := rfl

theorem entryFold_cons (today : Date) (rule : Recurring)
    (rest : List Recurring) (r : Recurring) :
    entryFold today (rule :: rest) r = entryFold today rest (entryStep today rule r) := rfl

theorem createTxTag_recurring (s : Store) (a b : Int) :
    (CreateTransactionTag s a b).recurring = s.recurring := by
  unfold CreateTransactionTag
  split <;> rfl

theorem createTxTag_transactions (s : Store) (a b : Int) :
    (CreateTransactionTag s a b).transactions = s.transactions := by
  unfold CreateTransactionTag
  split <;> rfl

theorem tagFold_recurring (txid : Int) :
    ∀ (tags : List Tag) (s : Store),
      (tags.foldl (fun s tag => CreateTransactionTag s txid tag.id) s).recurring
        = s.recurring
  | [], _ => rfl
  | tag :: tags, s => by
    rw [List.foldl_cons, tagFold_recurring txid tags, createTxTag_recurring]

theorem tagFold_transactions (txid : Int) :
    ∀ (tags : List Tag) (s : Store),
      (tags.foldl (fun s tag => CreateTransactionTag s txid tag.id) s).transactions
        = s.transactions
  | [], _ => rfl
  | tag :: tags, s => by
    rw [List.foldl_cons, tagFold_transactions txid tags, createTxTag_transactions]

theorem createTx_ok {s : Store} {p : CreateTransactionParams}
    {row : Transaction} {s1 : Store}
    (h : CreateTransaction s p = .ok (row, s1)) :
    s1.recurring = s.recurring ∧
      row.deletedAt = none ∧
      row.sourceRecurring = p.sourceRecurring ∧
      s1.transactions = s.transactions ++ [row] := by
  unfold CreateTransaction at h
  split at h
  · exact absurd h (by simp)
  · rw [Except.ok.injEq, Prod.mk.injEq] at h
    obtain ⟨hrow, hs⟩ := h
    subst hrow hs
    exact ⟨rfl, rfl, rfl, rfl⟩

theorem entryStep_ended {today : Date} {rule : Recurring}
    (hend : ruleEnded rule today = true) :
    entryStep today rule =
      fun r => if r.id = rule.id then { r with active := !r.active } else r := by
  funext r
  simp [entryStep, hend]

theorem entryStep_live {today : Date} {rule : Recurring}
    (hend : ruleEnded rule today = false) :
    entryStep today rule =
      fun r => if r.id = rule.id then
        { r with nextDueDate := calculateNextDueDate rule today } else r := by
  funext r
  simp [entryStep, hend]

theorem processRule_ok_recurring {today : Date} {s : Store} {rule : Recurring}
    {s1 : Store} (h : processRule today s rule = .ok s1) :
    s1.recurring = s.recurring.map (entryStep today rule) := by
  unfold processRule at h
  split at h
  · rename_i hend
    rw [Except.ok.injEq] at h
    subst h
    rw [entryStep_ended hend]
    rfl
  · rename_i hend
    rw [Bool.not_eq_true] at hend
    split at h
    · exact absurd h (by simp)
    · rename_i row sNew heq
      rw [Except.ok.injEq] at h
      subst h
      rw [entryStep_live hend]
      unfold UpdateRecurringNextDue
      rw [tagFold_recurring, (createTx_ok heq).1]

theorem processRule_ok_transactions {today : Date} {s : Store} {rule : Recurring}
    {s1 : Store} (h : processRule today s rule = .ok s1) :
    (ruleEnded rule today = true ∧ s1.transactions = s.transactions) ∨
      (ruleEnded rule today = false ∧ ∃ row,
        row.deletedAt = none ∧ row.sourceRecurring = some rule.id ∧
          s1.transactions = s.transactions ++ [row]) := by
  unfold processRule at h
  split at h
  · rename_i hend
    rw [Except.ok.injEq] at h
    subst h
    exact Or.inl ⟨hend, rfl⟩
  · rename_i hend
    rw [Bool.not_eq_true] at hend
    split at h
    · exact absurd h (by simp)
    · rename_i row sNew heq
      rw [Except.ok.injEq] at h
      subst h
      obtain ⟨-, hdel, hsrc, htx⟩ := createTx_ok heq
      refine Or.inr ⟨hend, row, hdel, hsrc, ?_⟩
      show (UpdateRecurringNextDue _ _ _).transactions = _
      unfold UpdateRecurringNextDue
      rw [tagFold_transactions]
      exact htx

/-! ## How the whole loop transforms the store -/

theorem runRules_ok_recurring {today : Date} :
    ∀ {rules : List Recurring} {s s1 : Store},
      runRules today rules s = .ok s1 →
      s1.recurring = s.recurring.map (entryFold today rules)
  | [], s, s1, h => by
    rw [runRules, Except.ok.injEq] at h
    subst h
    exact (List.map_id' s.recurring).symm
  | rule :: rest, s, s1, h => by
    rw [runRules] at h
    split at h
    · rename_i sm hsm
      have h1 := processRule_ok_recurring hsm
      have h2 := runRules_ok_recurring h
      rw [h2, h1, List.map_map]
      exact List.map_congr_left (fun r _ => (entryFold_cons today rule rest r).symm)
    · exact absurd h (by simp)

theorem entryStep_id (today : Date) (rule r : Recurring) :
    (entryStep today rule r).id = r.id := by
  unfold entryStep
  split <;> split <;> rfl

theorem entryFold_id (today : Date) :
    ∀ (rules : List Recurring) (r : Recurring),
      (entryFold today rules r).id = r.id
  | [], _ => rfl
  | rule :: rest, r => by
    rw [entryFold_cons, entryFold_id today rest, entryStep_id]

theorem entryStep_untouched {today : Date} {rule r : Recurring}
    (h : rule.id ≠ r.id) : entryStep today rule r = r := by
  have hne : ¬(r.id = rule.id) := fun hc => h hc.symm
  simp [entryStep, hne]

theorem entryFold_untouched {today : Date} :
    ∀ {rules : List Recurring} {r : Recurring},
      (∀ rule ∈ rules, rule.id ≠ r.id) → entryFold today rules r = r
  | [], _, _ => rfl
  | rule :: rest, r, h => by
    rw [entryFold_cons, entryStep_untouched (h rule (List.mem_cons_self _ _)),
      entryFold_untouched (fun x hx => h x (List.mem_cons_of_mem _ hx))]

theorem entryFold_append (today : Date) (l1 l2 : List Recurring) (r : Recurring) :
    entryFold today (l1 ++ l2) r = entryFold today l2 (entryFold today l1 r) :=
  List.foldl_append _ _ _ _

theorem entryFold_single_hit {today : Date} {l1 l2 : List Recurring}
    {rule r : Recurring} (h1 : ∀ x ∈ l1, x.id ≠ r.id)
    (h2 : ∀ x ∈ l2, x.id ≠ r.id) :
    entryFold today (l1 ++ rule :: l2) r = entryStep today rule r := by
  rw [entryFold_append, entryFold_untouched h1, entryFold_cons,
    entryFold_untouched (fun x hx => by
      rw [entryStep_id]; exact h2 x hx)]

theorem runRules_ok_transactions {today : Date} :
    ∀ {rules : List Recurring} {s s1 : Store},
      runRules today rules s = .ok s1 →
      ∃ news, s1.transactions = s.transactions ++ news ∧
        ∀ t ∈ news, t.deletedAt = none ∧
          ∃ rl ∈ rules, ruleEnded rl today = false ∧ t.sourceRecurring = some rl.id
  | [], s, s1, h => by
    rw [runRules, Except.ok.injEq] at h
    subst h
    exact ⟨[], by simp⟩
  | rule :: rest, s, s1, h => by
    rw [runRules] at h
    split at h
    · rename_i sm hsm
      obtain ⟨news, hnews, hprop⟩ := runRules_ok_transactions h
      rcases processRule_ok_transactions hsm with ⟨hend, htx⟩ | ⟨hend, row, hdel, hsrc, htx⟩
      · refine ⟨news, by rw [hnews, htx], fun t ht => ?_⟩
        obtain ⟨h1, rl, h2, h3, h4⟩ := hprop t ht
        exact ⟨h1, rl, List.mem_cons_of_mem _ h2, h3, h4⟩
      · refine ⟨row :: news, by rw [hnews, htx]; simp, fun t ht => ?_⟩
        rcases List.mem_cons.1 ht with rfl | ht
        · exact ⟨hdel, rule, List.mem_cons_self _ _, hend, hsrc⟩
        · obtain ⟨h1, rl, h2, h3, h4⟩ := hprop t ht
          exact ⟨h1, rl, List.mem_cons_of_mem _ h2, h3, h4⟩
    · exact absurd h (by simp)

/-! ## Shape of a whole successful or failed run -/

theorem purge_recurring (s : Store) (c : Option Date) :
    (PurgeSoftDeletedTransactions s c).recurring = s.recurring := rfl

theorem mem_purge {s : Store} {c : Option Date} {t : Transaction} :
    t ∈ (PurgeSoftDeletedTransactions s c).transactions ↔
      t ∈ s.transactions ∧ keepTx c t = true :=
  List.mem_filter

theorem keepTx_iff {c : Date} {t : Transaction} :
    keepTx (some c) t = true ↔
      ¬∃ d, t.deletedAt = some d ∧ dateLt d c = true := by
  unfold keepTx
  cases t.deletedAt <;> simp

theorem run_ok_inv {s : Store} {today : Date} {n : Nat}
    (h : (RunScheduler s today).1 = .ok n) :
    ∃ sm, runRules today (GetRecurringDueOnDate s today) s = .ok sm ∧
      n = (GetRecurringDueOnDate s today).length ∧
      (RunScheduler s today).2 =
        PurgeSoftDeletedTransactions sm (some (goAddDate today 0 0 (-30))) := by
  cases hr : runRules today (GetRecurringDueOnDate s today) s with
  | error e =>
    rw [RunScheduler, WithTx, runBody, hr] at h
    exact absurd h (by simp)
  | ok sm =>
    rw [RunScheduler, WithTx, runBody, hr] at h ⊢
    simp only [Except.ok.injEq] at h
    exact ⟨sm, rfl, h.symm, rfl⟩

theorem purge_idem (s : Store) (c : Option Date) :
    PurgeSoftDeletedTransactions (PurgeSoftDeletedTransactions s c) c =
      PurgeSoftDeletedTransactions s c := by
  unfold PurgeSoftDeletedTransactions
  simp [List.filter_filter]

theorem keepTx_none {c : Option Date} {t : Transaction}
    (h : t.deletedAt = none) : keepTx c t = true := by
  unfold keepTx
  rw [h]

/-! ## Concrete fixtures used by the claim witnesses and counterexamples -/

/-- A concrete run date used across witnesses: 2025-06-10. -/
def junTen : Date := ⟨2025, 6, 10⟩

/-- A daily rule due on 2025-06-10 whose occurrence for that date
already exists in the ledger. -/
def c2Rule : Recurring :=
  { id := 1, userId := 1, amountPence := -1250, description := some "gym",
    frequency := "daily", intervalN := 1, firstDueDate := ⟨2025, 6, 10⟩,
    nextDueDate := ⟨2025, 6, 10⟩, endDate := none, active := true }

/-- The pre-existing occurrence of `c2Rule` for 2025-06-10. -/
def c2Tx : Transaction :=
  { id := 5, userId := 1, amountPence := -1250, tDate := ⟨2025, 6, 10⟩,
    note := some "gym", sourceRecurring := some 1, deletedAt := none }

/-- A store in which the only due rule's occurrence has already been
materialized. -/
def c2Store : Store :=
  { recurring := [c2Rule], transactions := [c2Tx], transactionTags := [],
    recurringTags := [], tags := [], nextTransactionId := 6 }

/-- A daily rule two intervals behind the run date 2025-06-10. -/
def c3Rule : Recurring :=
  { id := 1, userId := 1, amountPence := -1250, description := some "gym",
    frequency := "daily", intervalN := 1, firstDueDate := ⟨2025, 6, 8⟩,
    nextDueDate := ⟨2025, 6, 8⟩, endDate := none, active := true }

/-- A store holding only the lagging daily rule `c3Rule`. -/
def c3Store : Store :=
  { recurring := [c3Rule], transactions := [], transactionTags := [],
    recurringTags := [], tags := [], nextTransactionId := 1 }

/-- A daily rule due exactly on the run date 2025-06-10, so that one
advance moves it past the run date. -/
def c3RuleOne : Recurring :=
  { c3Rule with firstDueDate := ⟨2025, 6, 10⟩, nextDueDate := ⟨2025, 6, 10⟩ }

/-- A store holding only the rule `c3RuleOne`. -/
def c3StoreOne : Store :=
  { c3Store with recurring := [c3RuleOne] }

/-! ## Claim C1 -/

/-- A monthly rule due on 2025-01-31 (the spec's clamping example). -/
def c1RuleMonthly : Recurring :=
  { id := 1, userId := 1, amountPence := -999, description := none,
    frequency := "monthly", intervalN := 1, firstDueDate := ⟨2025, 1, 31⟩,
    nextDueDate := ⟨2025, 1, 31⟩, endDate := none, active := true }

/-- A yearly rule due on 2020-02-29 (the spec's leap-day example). -/
def c1RuleYearly : Recurring :=
  { id := 2, userId := 1, amountPence := -999, description := none,
    frequency := "yearly", intervalN := 1, firstDueDate := ⟨2020, 2, 29⟩,
    nextDueDate := ⟨2020, 2, 29⟩, endDate := none, active := true }

/-- Claim C1: the claim (and the scheduler package's own unit tests)
say `advance` clamps at calendar boundaries, so that
`advance(2025-01-31, monthly, 1) = 2025-02-28` and
`advance(2020-02-29, yearly, 1) = 2021-02-28`.  The code instead calls
Go's `AddDate`, which normalizes the overflowing day-of-month: it
returns 2025-03-03 and 2021-03-01 on those inputs, contradicting the
repository's own test expectations. -/
theorem advance_normalizes_monthly_yearly :
    calculateNextDueDate c1RuleMonthly ⟨2025, 1, 31⟩ = ⟨2025, 3, 3⟩ ∧
      calculateNextDueDate c1RuleMonthly ⟨2025, 1, 31⟩ ≠ ⟨2025, 2, 28⟩ ∧
      calculateNextDueDate c1RuleYearly ⟨2020, 2, 29⟩ = ⟨2021, 3, 1⟩ ∧
      calculateNextDueDate c1RuleYearly ⟨2020, 2, 29⟩ ≠ ⟨2021, 2, 28⟩ := by
  decide

/-! ## Claim C2 -/

/-- Claim C2 (counterexample): in a store whose only due rule already
has its occurrence for its due date, the run is not a no-op for the
duplicate: the uniqueness violation is surfaced to the caller as an
error and the run aborts (rolling the store back). -/
theorem run_error_on_duplicate_occurrence_cex :
    RunScheduler c2Store junTen = (.error .uniqueConstraint, c2Store) := rfl

/-- Claim C2 (amended): when the first due rule's occurrence already
exists for its `(source_rule, date)` pair, `CreateTransaction` raises
SQLite's uniqueness violation; the run aborts there — the error is
surfaced to the caller, the store is rolled back unchanged, and the
remaining rules are not processed. -/
theorem run_aborts_on_existing_occurrence (s : Store) (asOf : Date)
    (r : Recurring) (l2 : List Recurring)
    (hsel : GetRecurringDueOnDate s asOf = r :: l2)
    (hend : ruleEnded r asOf = false)
    (hconf : ∃ t ∈ s.transactions,
      t.sourceRecurring = some r.id ∧ t.tDate = r.nextDueDate) :
    RunScheduler s asOf = (.error .uniqueConstraint, s) := by
  have hc : txConflict s
      { userId := r.userId, amountPence := r.amountPence,
        tDate := r.nextDueDate, note := r.description,
        sourceRecurring := some r.id } = true := by
    unfold txConflict
    obtain ⟨t, ht, h1, h2⟩ := hconf
    exact List.any_eq_true.2 ⟨t, ht, by simp [h1, h2]⟩
  have hpr : processRule asOf s r = .error .uniqueConstraint := by
    unfold processRule CreateTransaction
    rw [hend, hc]
    rfl
  rw [RunScheduler, WithTx, runBody, hsel, runRules, hpr]

/-- Witness for C2's amended theorem: the hypotheses hold in the
concrete store `c2Store`, where the run indeed aborts with the
uniqueness error and leaves the store untouched. -/
theorem run_aborts_on_existing_occurrence_witness :
    GetRecurringDueOnDate c2Store junTen = [c2Rule] ∧
      RunScheduler c2Store junTen = (.error .uniqueConstraint, c2Store) :=
  ⟨by decide, run_aborts_on_existing_occurrence c2Store junTen c2Rule []
    (by decide) (by decide) ⟨c2Tx, by decide, by decide, by decide⟩⟩

/-! ## Claim C3 -/

/-- Claim C3 (counterexample): `Run(asOf)` is not idempotent when a
rule's `next_due_date` is more than one interval before `asOf`.  With a
daily rule two days behind, the first run creates one transaction and
the second run (same `asOf`, no intervening edits) creates another. -/
theorem second_run_materializes_catchup_cex :
    (RunScheduler c3Store junTen).2.transactions.length = 1 ∧
      (RunScheduler (RunScheduler c3Store junTen).2 junTen).1 = .ok 1 ∧
      (RunScheduler (RunScheduler c3Store junTen).2 junTen).2.transactions.length = 2 :=
  ⟨rfl, rfl, rfl⟩

/-- Claim C3 (amended): the second `Run(asOf)` creates zero additional
transactions — indeed leaves the store completely unchanged and reports
zero rules processed — provided no rule is still due after the first
successful run (which holds whenever no rule was more than one interval
behind `asOf`). -/
theorem second_run_noop_when_no_rule_due {s : Store} {asOf : Date} {n : Nat}
    (h1 : (RunScheduler s asOf).1 = .ok n)
    (h2 : GetRecurringDueOnDate (RunScheduler s asOf).2 asOf = []) :
    RunScheduler (RunScheduler s asOf).2 asOf = (.ok 0, (RunScheduler s asOf).2) := by
  obtain ⟨sm, hrun, hn, hpost⟩ := run_ok_inv h1
  have hidem : PurgeSoftDeletedTransactions (RunScheduler s asOf).2
      (some (goAddDate asOf 0 0 (-30))) = (RunScheduler s asOf).2 := by
    rw [hpost, purge_idem]
  have hstep : RunScheduler (RunScheduler s asOf).2 asOf =
      (.ok 0, PurgeSoftDeletedTransactions (RunScheduler s asOf).2
        (some (goAddDate asOf 0 0 (-30)))) := by
    rw [RunScheduler, WithTx, runBody, h2]
    rfl
  rw [hstep, hidem]

/-- Witness for C3's amended theorem: after the first run on a store
with a rule exactly one interval behind, nothing is due any more, and
the second run returns zero and changes nothing. -/
theorem second_run_noop_when_no_rule_due_witness :
    (RunScheduler c3StoreOne junTen).1 = .ok 1 ∧
      GetRecurringDueOnDate (RunScheduler c3StoreOne junTen).2 junTen = [] ∧
      RunScheduler (RunScheduler c3StoreOne junTen).2 junTen =
        (.ok 0, (RunScheduler c3StoreOne junTen).2) :=
  ⟨rfl, by decide, second_run_noop_when_no_rule_due rfl (by decide)⟩

/-! ## Claim C4 -/

/-- Claim C4: if any step inside the run returns an error, the whole
run is rolled back: the resulting store is exactly the initial one (so
no insert, tag copy, advance, deactivation or purge of the failed run
remains visible) and the error is the value returned to the caller. -/
theorem run_error_rolls_back (s : Store) (today : Date) (e : SqlErr)
    (h : (RunScheduler s today).1 = .error e) :
    (RunScheduler s today).2 = s := by
  cases hr : runRules today (GetRecurringDueOnDate s today) s with
  | error e2 => rw [RunScheduler, WithTx, runBody, hr]
  | ok sm =>
    rw [RunScheduler, WithTx, runBody, hr] at h
    exact absurd h (by simp)

/-- Witness for C4: a concrete failing run (duplicate occurrence) whose
final store is the initial one. -/
theorem run_error_rolls_back_witness :
    (RunScheduler c2Store junTen).1 = .error .uniqueConstraint ∧
      (RunScheduler c2Store junTen).2 = c2Store :=
  ⟨rfl, run_error_rolls_back c2Store junTen .uniqueConstraint rfl⟩

/-! ## Tracking a single rule entry through a successful run -/

theorem due_pairwise_ne {s : Store} (asOf : Date)
    (hids : s.recurring.Pairwise (fun a b => a.id ≠ b.id)) :
    (GetRecurringDueOnDate s asOf).Pairwise (fun a b => a.id ≠ b.id) := by
  exact ((perm_sortBy _).pairwise_iff Ne.symm).2 (hids.filter _)

/-- Through a successful run, the unique entry carrying a selected
rule's id ends up as `entryStep` of that rule (deactivated when the
rule has expired, with its due date advanced otherwise). -/
theorem run_entry_update {s : Store} {asOf : Date} {rule : Recurring} {n : Nat}
    (hids : s.recurring.Pairwise (fun a b => a.id ≠ b.id))
    (hmem : rule ∈ s.recurring) (hactive : rule.active = true)
    (hdue : dateLe rule.nextDueDate asOf = true)
    (hrun : (RunScheduler s asOf).1 = .ok n) :
    entryStep asOf rule rule ∈ (RunScheduler s asOf).2.recurring ∧
      ∀ r1 ∈ (RunScheduler s asOf).2.recurring,
        r1.id = rule.id → r1 = entryStep asOf rule rule := by
  obtain ⟨sm, hrr, -, hpost⟩ := run_ok_inv hrun
  have hmap := runRules_ok_recurring hrr
  have hdmem : rule ∈ GetRecurringDueOnDate s asOf :=
    mem_due_iff.2 ⟨hmem, hactive, hdue⟩
  obtain ⟨l1, l2, hsplit⟩ := List.append_of_mem hdmem
  have hPdue := due_pairwise_ne asOf hids
  rw [hsplit, List.pairwise_append] at hPdue
  have h1 : ∀ x ∈ l1, x.id ≠ rule.id :=
    fun x hx => hPdue.2.2 x hx rule (List.mem_cons_self _ _)
  have h2 : ∀ x ∈ l2, x.id ≠ rule.id := by
    have := List.pairwise_cons.1 hPdue.2.1
    exact fun x hx => (this.1 x hx).symm
  have hF : entryFold asOf (GetRecurringDueOnDate s asOf) rule
      = entryStep asOf rule rule := by
    rw [hsplit]
    exact entryFold_single_hit h1 h2
  have hrecur : (RunScheduler s asOf).2.recurring = sm.recurring := by
    rw [hpost, purge_recurring]
  constructor
  · rw [hrecur, hmap, ← hF]
    exact List.mem_map_of_mem _ hmem
  · intro r1 hr1 hid
    rw [hrecur, hmap] at hr1
    obtain ⟨r0, hr0, hr1eq⟩ := List.mem_map.1 hr1
    have hid0 : r0.id = rule.id := by
      rw [← hid, ← hr1eq, entryFold_id]
    have : r0 = rule := uniqueById hids hr0 hmem hid0
    rw [← hr1eq, this, hF]

/-- Through a successful run, a rule that was not selected is left
completely unchanged, and no other entry takes its id. -/
theorem run_entry_frame {s : Store} {asOf : Date} {r : Recurring} {n : Nat}
    (hids : s.recurring.Pairwise (fun a b => a.id ≠ b.id))
    (hmem : r ∈ s.recurring)
    (hnsel : ¬(r.active = true ∧ dateLe r.nextDueDate asOf = true))
    (hrun : (RunScheduler s asOf).1 = .ok n) :
    r ∈ (RunScheduler s asOf).2.recurring ∧
      ∀ r1 ∈ (RunScheduler s asOf).2.recurring, r1.id = r.id → r1 = r := by
  obtain ⟨sm, hrr, -, hpost⟩ := run_ok_inv hrun
  have hmap := runRules_ok_recurring hrr
  have huntouched : ∀ rl ∈ GetRecurringDueOnDate s asOf, rl.id ≠ r.id := by
    intro rl hrl hid
    obtain ⟨hrlmem, hrlact, hrldue⟩ := mem_due_iff.1 hrl
    have : rl = r := uniqueById hids hrlmem hmem hid
    rw [this] at hrlact hrldue
    exact hnsel ⟨hrlact, hrldue⟩
  have hF : entryFold asOf (GetRecurringDueOnDate s asOf) r = r :=
    entryFold_untouched huntouched
  have hrecur : (RunScheduler s asOf).2.recurring = sm.recurring := by
    rw [hpost, purge_recurring]
  constructor
  · rw [hrecur, hmap, ← hF]
    exact List.mem_map_of_mem _ hmem
  · intro r1 hr1 hid
    rw [hrecur, hmap] at hr1
    obtain ⟨r0, hr0, hr1eq⟩ := List.mem_map.1 hr1
    have hid0 : r0.id = r.id := by
      rw [← hid, ← hr1eq, entryFold_id]
    have hr0r : r0 = r := uniqueById hids hr0 hmem hid0
    rw [← hr1eq, hr0r, hF]

/-! ## Claim C5 -/

/-- A rule carrying the frequency value `fortnightly`, which the
advancer does not recognize. -/
def c5Rule : Recurring :=
  { id := 1, userId := 1, amountPence := -500, description := none,
    frequency := "fortnightly", intervalN := 1, firstDueDate := ⟨2025, 6, 1⟩,
    nextDueDate := ⟨2025, 6, 1⟩, endDate := none, active := true }

/-- A store holding only the unrecognized-frequency rule `c5Rule`. -/
def c5Store : Store :=
  { recurring := [c5Rule], transactions := [], transactionTags := [],
    recurringTags := [], tags := [], nextTransactionId := 1 }

/-- Claim C5: for a rule whose frequency is none of `daily`, `weekly`,
`monthly`, `yearly`, the advancer returns the current due date
unchanged; a run that selects such a (not-ended) rule and succeeds
raises no error for it and persists the rule completely unchanged, so
the rule is selected as due again by the next-due query at every later
run date. -/
theorem unrecognized_frequency_preserved (s : Store) (asOf : Date)
    (rule : Recurring) (n : Nat)
    (hfreq : rule.frequency ≠ "daily" ∧ rule.frequency ≠ "weekly" ∧
      rule.frequency ≠ "monthly" ∧ rule.frequency ≠ "yearly")
    (hids : s.recurring.Pairwise (fun a b => a.id ≠ b.id))
    (hmem : rule ∈ s.recurring) (hactive : rule.active = true)
    (hdue : dateLe rule.nextDueDate asOf = true)
    (hend : ruleEnded rule asOf = false)
    (hrun : (RunScheduler s asOf).1 = .ok n) :
    calculateNextDueDate rule asOf = rule.nextDueDate ∧
      rule ∈ (RunScheduler s asOf).2.recurring ∧
      (∀ r1 ∈ (RunScheduler s asOf).2.recurring, r1.id = rule.id → r1 = rule) ∧
      ∀ asOf2, dateLe asOf asOf2 = true →
        rule ∈ GetRecurringDueOnDate (RunScheduler s asOf).2 asOf2 := by
  have hcalc : calculateNextDueDate rule asOf = rule.nextDueDate := by
    simp [calculateNextDueDate, hfreq.1, hfreq.2.1, hfreq.2.2.1, hfreq.2.2.2]
  have hv : entryStep asOf rule rule = rule := by
    simp [entryStep, hend, hcalc]
  obtain ⟨hvmem, huniq⟩ := run_entry_update hids hmem hactive hdue hrun
  rw [hv] at hvmem huniq
  exact ⟨hcalc, hvmem, huniq, fun asOf2 h =>
    mem_due_iff.2 ⟨hvmem, hactive, dateLe_trans hdue h⟩⟩

/-- Witness for C5: in a concrete store whose only rule has frequency
`fortnightly`, the run succeeds, the rule survives unchanged, and it is
due again at every later date. -/
theorem unrecognized_frequency_preserved_witness :
    (RunScheduler c5Store junTen).1 = .ok 1 ∧
      (calculateNextDueDate c5Rule junTen = c5Rule.nextDueDate ∧
        c5Rule ∈ (RunScheduler c5Store junTen).2.recurring ∧
        (∀ r1 ∈ (RunScheduler c5Store junTen).2.recurring,
          r1.id = c5Rule.id → r1 = c5Rule) ∧
        ∀ asOf2, dateLe junTen asOf2 = true →
          c5Rule ∈ GetRecurringDueOnDate (RunScheduler c5Store junTen).2 asOf2) :=
  ⟨rfl, unrecognized_frequency_preserved c5Store junTen c5Rule 1
    (by decide) (by decide) (by decide) rfl (by decide) rfl rfl⟩

/-! ## Claim C6 -/

/-- The run date of the purge example: 2025-07-31, with cutoff
2025-07-01. -/
def julPurgeDate : Date := ⟨2025, 7, 31⟩

/-- A transaction soft-deleted 31 days before `julPurgeDate`. -/
def c6TxOld : Transaction :=
  { id := 1, userId := 1, amountPence := -500, tDate := ⟨2025, 5, 1⟩,
    note := none, sourceRecurring := none, deletedAt := some ⟨2025, 6, 30⟩ }

/-- A transaction soft-deleted 29 days before `julPurgeDate`. -/
def c6TxKeep : Transaction :=
  { id := 2, userId := 1, amountPence := -500, tDate := ⟨2025, 5, 2⟩,
    note := none, sourceRecurring := none, deletedAt := some ⟨2025, 7, 2⟩ }

/-- A store with two soft-deleted transactions on either side of the
retention cutoff and no rules. -/
def c6Store : Store :=
  { recurring := [], transactions := [c6TxOld, c6TxKeep], transactionTags := [],
    recurringTags := [], tags := [], nextTransactionId := 3 }

/-- Claim C6: a successful `Run(asOf)` deletes exactly the
pre-existing ledger rows whose `deleted_at` is set and strictly before
`asOf - 30 days` (the cutoff `today.AddDate(0, 0, -30)`), and every row
of the final store either pre-existed or is a live row created by the
run. -/
theorem run_purges_exactly_old_soft_deleted (s : Store) (asOf : Date) (n : Nat)
    (hrun : (RunScheduler s asOf).1 = .ok n) :
    (∀ t ∈ s.transactions,
      (t ∈ (RunScheduler s asOf).2.transactions ↔
        ¬∃ d, t.deletedAt = some d ∧
          dateLt d (goAddDate asOf 0 0 (-30)) = true)) ∧
      ∀ t ∈ (RunScheduler s asOf).2.transactions,
        t ∈ s.transactions ∨ t.deletedAt = none := by
  obtain ⟨sm, hrr, -, hpost⟩ := run_ok_inv hrun
  obtain ⟨news, hmid, hnews⟩ := runRules_ok_transactions hrr
  constructor
  · intro t ht
    rw [hpost, mem_purge, keepTx_iff]
    constructor
    · rintro ⟨-, h⟩
      exact h
    · intro h
      exact ⟨by rw [hmid]; exact List.mem_append_left _ ht, h⟩
  · intro t ht
    rw [hpost, mem_purge] at ht
    have hmem := ht.1
    rw [hmid] at hmem
    rcases List.mem_append.1 hmem with h | h
    · exact Or.inl h
    · exact Or.inr (hnews t h).1

/-- Witness for C6: in the concrete store, the row soft-deleted 31 days
before the run date is purged and the one soft-deleted 29 days before
is retained. -/
theorem run_purges_exactly_old_soft_deleted_witness :
    (RunScheduler c6Store julPurgeDate).1 = .ok 0 ∧
      c6TxOld ∉ (RunScheduler c6Store julPurgeDate).2.transactions ∧
      c6TxKeep ∈ (RunScheduler c6Store julPurgeDate).2.transactions := by
  have h := run_purges_exactly_old_soft_deleted c6Store julPurgeDate 0 rfl
  refine ⟨rfl, fun hin => ?_, ?_⟩
  · exact ((h.1 c6TxOld (by decide)).1 hin) ⟨⟨2025, 6, 30⟩, rfl, rfl⟩
  · refine (h.1 c6TxKeep (by decide)).2 ?_
    rintro ⟨d, hd, hlt⟩
    have hd2 : (⟨2025, 7, 2⟩ : Date) = d := Option.some.inj hd
    rw [← hd2] at hlt
    exact absurd hlt (by decide)

/-! ## Claim C7 -/

/-- A due daily rule whose `end_date` (2025-06-05) is before the run
date 2025-06-10. -/
def c7Rule : Recurring :=
  { id := 1, userId := 1, amountPence := -500, description := none,
    frequency := "daily", intervalN := 1, firstDueDate := ⟨2025, 6, 1⟩,
    nextDueDate := ⟨2025, 6, 1⟩, endDate := some ⟨2025, 6, 5⟩, active := true }

/-- A store holding only the expired rule `c7Rule`. -/
def c7Store : Store :=
  { recurring := [c7Rule], transactions := [], transactionTags := [],
    recurringTags := [], tags := [], nextTransactionId := 1 }

/-- Claim C7: a selected rule with `end_date` set and before `asOf` is
deactivated by a successful run — the unique entry with its id ends up
exactly as the rule with `active := false`, every other field
(including `next_due_date`) unchanged — and no transaction of that rule
is created by the run. -/
theorem run_deactivates_expired_rule (s : Store) (asOf : Date)
    (rule : Recurring) (e : Date) (n : Nat)
    (hids : s.recurring.Pairwise (fun a b => a.id ≠ b.id))
    (hmem : rule ∈ s.recurring) (hactive : rule.active = true)
    (hdue : dateLe rule.nextDueDate asOf = true)
    (hendSet : rule.endDate = some e) (hendLt : dateLt e asOf = true)
    (hrun : (RunScheduler s asOf).1 = .ok n) :
    { rule with active := false } ∈ (RunScheduler s asOf).2.recurring ∧
      (∀ r1 ∈ (RunScheduler s asOf).2.recurring,
        r1.id = rule.id → r1 = { rule with active := false }) ∧
      ∀ t ∈ (RunScheduler s asOf).2.transactions,
        t.sourceRecurring = some rule.id → t ∈ s.transactions := by
  have hend : ruleEnded rule asOf = true := by
    unfold ruleEnded
    rw [hendSet]
    exact hendLt
  have hv : entryStep asOf rule rule = { rule with active := false } := by
    simp [entryStep, hend, hactive]
  obtain ⟨hvmem, huniq⟩ := run_entry_update hids hmem hactive hdue hrun
  rw [hv] at hvmem huniq
  refine ⟨hvmem, huniq, ?_⟩
  obtain ⟨sm, hrr, -, hpost⟩ := run_ok_inv hrun
  obtain ⟨news, hmid, hnews⟩ := runRules_ok_transactions hrr
  intro t ht hsrc
  rw [hpost, mem_purge] at ht
  have hmem2 := ht.1
  rw [hmid] at hmem2
  rcases List.mem_append.1 hmem2 with h | h
  · exact h
  · obtain ⟨-, rl, hrlmem, hrlend, hrlsrc⟩ := hnews t h
    have hrlid : rl.id = rule.id := by
      rw [hrlsrc] at hsrc
      exact Option.some.inj hsrc
    have : rl = rule :=
      uniqueById hids (mem_due_iff.1 hrlmem).1 hmem hrlid
    rw [this, hend] at hrlend
    exact absurd hrlend (by simp)

/-- Witness for C7: the concrete expired rule is deactivated in place
and no transaction is created. -/
theorem run_deactivates_expired_rule_witness :
    (RunScheduler c7Store junTen).1 = .ok 1 ∧
      ({ c7Rule with active := false } ∈ (RunScheduler c7Store junTen).2.recurring ∧
        (∀ r1 ∈ (RunScheduler c7Store junTen).2.recurring,
          r1.id = c7Rule.id → r1 = { c7Rule with active := false }) ∧
        ∀ t ∈ (RunScheduler c7Store junTen).2.transactions,
          t.sourceRecurring = some c7Rule.id → t ∈ c7Store.transactions) :=
  ⟨rfl, run_deactivates_expired_rule c7Store junTen c7Rule ⟨2025, 6, 5⟩ 1
    (by decide) (by decide) rfl (by decide) rfl (by decide) rfl⟩

/-! ## Claim C8 -/

/-- A due rule with the latest due date but the smallest id. -/
def c8RuleA : Recurring :=
  { id := 1, userId := 1, amountPence := -100, description := none,
    frequency := "daily", intervalN := 1, firstDueDate := ⟨2025, 6, 3⟩,
    nextDueDate := ⟨2025, 6, 3⟩, endDate := none, active := true }

/-- A due rule tied on due date with `c8RuleC` but with a smaller id. -/
def c8RuleB : Recurring :=
  { c8RuleA with id := 2, firstDueDate := ⟨2025, 6, 1⟩, nextDueDate := ⟨2025, 6, 1⟩ }

/-- A due rule tied on due date with `c8RuleB` but with a larger id. -/
def c8RuleC : Recurring :=
  { c8RuleB with id := 3 }

/-- An inactive rule that must not be selected. -/
def c8RuleD : Recurring :=
  { c8RuleB with id := 4, active := false }

/-- A store with two date-tied due rules, a later due rule, and an
inactive rule. -/
def c8Store : Store :=
  { recurring := [c8RuleA, c8RuleB, c8RuleC, c8RuleD], transactions := [],
    transactionTags := [], recurringTags := [], tags := [],
    nextTransactionId := 1 }

/-- Claim C8: when the `recurring` table is stored in ascending-id
order (the `AUTOINCREMENT` invariant), the selection the run processes
consists of exactly the rules with `active = true` and
`next_due_date <= asOf` (as a permutation of that filter, and as a
membership equivalence), ordered by `next_due_date` ascending with ties
broken by id ascending — a deterministic processing order.
`RunScheduler` folds `processRule` over exactly this list. -/
theorem due_selection_ordered_deterministic (s : Store) (asOf : Date)
    (hsorted : s.recurring.Pairwise (fun a b => a.id < b.id)) :
    (GetRecurringDueOnDate s asOf).Perm
        (s.recurring.filter (fun r => r.active && dateLe r.nextDueDate asOf)) ∧
      (GetRecurringDueOnDate s asOf).Pairwise schedOrder ∧
      ∀ r, r ∈ GetRecurringDueOnDate s asOf ↔
        r ∈ s.recurring ∧ r.active = true ∧ dateLe r.nextDueDate asOf = true :=
  ⟨perm_sortBy _, pairwise_sortBy_sched (hsorted.filter _),
    fun _ => mem_due_iff⟩

/-- Witness for C8: the concrete selection comes out as
`[c8RuleB, c8RuleC, c8RuleA]` — date-tied rules in id order, the
inactive rule excluded — and the theorem's conclusions hold there. -/
theorem due_selection_ordered_deterministic_witness :
    GetRecurringDueOnDate c8Store junTen = [c8RuleB, c8RuleC, c8RuleA] ∧
      ((GetRecurringDueOnDate c8Store junTen).Perm
          (c8Store.recurring.filter
            (fun r => r.active && dateLe r.nextDueDate junTen)) ∧
        (GetRecurringDueOnDate c8Store junTen).Pairwise schedOrder ∧
        ∀ r, r ∈ GetRecurringDueOnDate c8Store junTen ↔
          r ∈ c8Store.recurring ∧ r.active = true ∧
            dateLe r.nextDueDate junTen = true) :=
  ⟨by decide, due_selection_ordered_deterministic c8Store junTen (by decide)⟩

/-! ## Claim C9 -/

/-- Claim C9: a successful `Run(asOf)` returns exactly the number of
rules found due at the start of the run — the length of the
`GetRecurringDueOnDate` selection — regardless of how many transactions
were actually created (a rule that was only deactivated still
counts). -/
theorem run_reports_rules_found_due (s : Store) (asOf : Date) (n : Nat)
    (hrun : (RunScheduler s asOf).1 = .ok n) :
    n = (GetRecurringDueOnDate s asOf).length := by
  obtain ⟨-, -, hn, -⟩ := run_ok_inv hrun
  exact hn

/-- Witness for C9: the run over the expired rule `c7Rule` reports one
processed rule while creating zero transactions. -/
theorem run_reports_rules_found_due_witness :
    (RunScheduler c7Store junTen).1 = .ok 1 ∧
      1 = (GetRecurringDueOnDate c7Store junTen).length ∧
      (RunScheduler c7Store junTen).2.transactions.length = 0 :=
  ⟨rfl, run_reports_rules_found_due c7Store junTen 1 rfl, rfl⟩

/-! ## Claim C10 -/

/-- A due daily rule processed by the C10 run. -/
def c10RuleDue : Recurring :=
  { id := 1, userId := 1, amountPence := -100, description := none,
    frequency := "daily", intervalN := 1, firstDueDate := ⟨2025, 6, 10⟩,
    nextDueDate := ⟨2025, 6, 10⟩, endDate := none, active := true }

/-- An active rule whose `next_due_date` lies after the run date. -/
def c10RuleLater : Recurring :=
  { c10RuleDue with
    id := 2,
    frequency := "monthly",
    firstDueDate := ⟨2025, 12, 1⟩,
    nextDueDate := ⟨2025, 12, 1⟩ }

/-- An inactive rule. -/
def c10RuleOff : Recurring :=
  { c10RuleDue with id := 3, active := false }

/-- A live manually-entered transaction that the run must not touch. -/
def c10TxLive : Transaction :=
  { id := 1, userId := 1, amountPence := 250, tDate := ⟨2025, 6, 1⟩,
    note := some "cash", sourceRecurring := none, deletedAt := none }

/-- A store with one due rule, two unselected rules, and one live
transaction. -/
def c10Store : Store :=
  { recurring := [c10RuleDue, c10RuleLater, c10RuleOff],
    transactions := [c10TxLive], transactionTags := [], recurringTags := [],
    tags := [], nextTransactionId := 2 }

/-- Claim C10: a successful `Run(asOf)` leaves completely unchanged
every rule that was not selected (inactive, or due after `asOf`) — the
rule survives as-is and no other entry takes its id — and keeps every
ledger transaction that was live (`deleted_at` null) before the run. -/
theorem run_frame_unselected_and_live (s : Store) (asOf : Date) (n : Nat)
    (hids : s.recurring.Pairwise (fun a b => a.id ≠ b.id))
    (hrun : (RunScheduler s asOf).1 = .ok n) :
    (∀ r ∈ s.recurring, ¬(r.active = true ∧ dateLe r.nextDueDate asOf = true) →
      r ∈ (RunScheduler s asOf).2.recurring ∧
        ∀ r1 ∈ (RunScheduler s asOf).2.recurring, r1.id = r.id → r1 = r) ∧
      ∀ t ∈ s.transactions, t.deletedAt = none →
        t ∈ (RunScheduler s asOf).2.transactions := by
  constructor
  · intro r hmem hnsel
    exact run_entry_frame hids hmem hnsel hrun
  · intro t ht hdel
    obtain ⟨sm, hrr, -, hpost⟩ := run_ok_inv hrun
    obtain ⟨news, hmid, -⟩ := runRules_ok_transactions hrr
    rw [hpost, mem_purge]
    refine ⟨?_, keepTx_none hdel⟩
    rw [hmid]
    exact List.mem_append_left _ ht

/-- Witness for C10: in the concrete store, the future-dated rule and
the inactive rule survive the run unchanged and the live manual
transaction is still present. -/
theorem run_frame_unselected_and_live_witness :
    (RunScheduler c10Store junTen).1 = .ok 1 ∧
      c10RuleLater ∈ (RunScheduler c10Store junTen).2.recurring ∧
      c10RuleOff ∈ (RunScheduler c10Store junTen).2.recurring ∧
      c10TxLive ∈ (RunScheduler c10Store junTen).2.transactions := by
  have h := run_frame_unselected_and_live c10Store junTen 1 (by decide) rfl
  exact ⟨rfl, (h.1 c10RuleLater (by decide) (by decide)).1,
    (h.1 c10RuleOff (by decide) (by decide)).1,
    h.2 c10TxLive (by decide) rfl⟩

end BudgetApi
